import Mathlib

/-!
Verification of the record-type factory in `run.py`.

The repository consists of two functions:

* `get_field_names(field_names)` — normalizes a field specification (a
  delimited string, or an iterable of strings) into a tuple of validated
  identifier names;
* `record_factory(cls_name, field_names)` — builds a new type whose
  instances carry exactly those named attributes (`__slots__`), are
  constructed through `inspect.Signature.bind`, iterate over their field
  values in declared order, and render as `Name(field=value, ...)`.

This file shallowly embeds both functions and the relevant host-language
semantics (string `split`/`replace`, `str.isidentifier`,
`inspect.Signature` construction and `Signature.bind`, `__slots__`
attribute assignment) as executable Lean definitions, and proves the
specification's claims about them.
-/

/-- Model of a Python runtime value, restricted to the value kinds the
claims exercise: strings and integers. -/
inductive Value where
  | str : String → Value
  | int : Int → Value
deriving DecidableEq

/-- Model of Python `repr` on a `Value`.  `repr` of an `int` is its
decimal form; `repr` of a `str` wraps it in single quotes.  (The string
case models Python `repr` for strings that contain no quote, backslash
or non-printable characters, which covers every string the program's
documented behavior exercises.) -/
def reprV : Value → String
  | Value.str s => "'" ++ s ++ "'"
  | Value.int n => toString n

/-- Errors the embedded program can raise.  In the source every one of
these is a Python exception; the constructors record the distinguishing
message, following the spec's error taxonomy:

* `invalidFieldName` — `TypeError("All field names must be identifiers")`
  raised by `get_field_names` (the spec's `InvalidFieldNameError`);
* `missingArgument name` — `TypeError("missing a required argument: '<name>'")`
  from `Signature.bind` (the spec's `MissingArgumentError`);
* `duplicateArgument name` — `TypeError("multiple values for argument '<name>'")`
  from `Signature.bind` (the spec's `DuplicateArgumentError`);
* `unexpectedArgument name` — `TypeError("got an unexpected keyword argument '<name>'")`
  from `Signature.bind` (the spec's `UnexpectedArgumentError`);
* `tooManyPositional` — `TypeError("too many positional arguments")` from
  `Signature.bind`;
* `invalidParameterName name` / `duplicateParameterName name` —
  `ValueError` raised while the `__init__` body constructs
  `Signature(Parameter(name=name, ...) for name in slots)`;
* `attributeError name` — `AttributeError` from reading an unset slot or
  assigning a name outside `__slots__`. -/
inductive PyError where
  | invalidFieldName : PyError
  | missingArgument : String → PyError
  | duplicateArgument : String → PyError
  | unexpectedArgument : String → PyError
  | tooManyPositional : PyError
  | invalidParameterName : String → PyError
  | duplicateParameterName : String → PyError
  | attributeError : String → PyError
deriving DecidableEq

/-- Model of the `FieldNames = Union[str, Iterable[str]]` input type of
`get_field_names`:

* `str s` — a single string of names;
* `list xs` — a re-iterable ordered collection (list, tuple) of names;
* `iter xs` — a one-shot iterator (generator, `iter(...)`) that would
  yield `xs`; iterating it a second time yields nothing. -/
inductive FieldNames where
  | str : String → FieldNames
  | list : List String → FieldNames
  | iter : List String → FieldNames

/-- Characters on which Python `str.split()` (no separator argument)
splits: the ASCII whitespace characters. -/
def isPySpace (c : Char) : Bool :=
  c = ' ' || c = '\t' || c = '\n' || c = '\x0b' || c = '\x0c' || c = '\r'

/-- Tokenizer underlying Python `str.split()`: split the character list
at every character satisfying `sep`, discarding empty tokens.  `cur`
accumulates the current token in reverse. -/
def splitTokens (sep : Char → Bool) : List Char → List Char → List (List Char)
  | [], cur => if cur.isEmpty then [] else [cur.reverse]
  | c :: cs, cur =>
    if sep c then
      if cur.isEmpty then splitTokens sep cs []
      else cur.reverse :: splitTokens sep cs []
    else splitTokens sep cs (c :: cur)

/-- Model of `field_names.replace(",", " ")`: the pattern is the single
character `,`, so the call replaces each comma with a space. -/
def pyReplaceCommaSpace (s : String) : List Char :=
  s.data.map (fun c => if c = ',' then ' ' else c)

/-- The token list `field_names.replace(",", " ").split()` computed by
`get_field_names` on a string input. -/
def strFieldTokens (s : String) : List String :=
  (splitTokens isPySpace (pyReplaceCommaSpace s) []).map List.asString

/-- Modelled from the spec: "split on whitespace and commas (treat comma
as an additional separator) into candidate names, preserving order,
discarding empty tokens" — one pass that treats a comma like a
whitespace separator directly.  Compared against `strFieldTokens`, the
code's replace-then-split computation. -/
def specFieldTokens (s : String) : List String :=
  (splitTokens (fun c => isPySpace c || c = ',') s.data []).map List.asString

/-- Model of Python `str.isidentifier()` (restricted to ASCII, which
covers every name the program's documented behavior exercises):
non-empty, the first character a letter or underscore, the rest letters,
digits or underscores.  Note that `str.isidentifier` is purely lexical:
it does NOT reject reserved keywords such as `class`. -/
def isIdentifier (s : String) : Bool :=
  match s.data with
  | [] => false
  | c :: cs => (c.isAlpha || c = '_') && cs.all (fun d => d.isAlpha || d.isDigit || d = '_')

/-- The candidate names a field specification denotes: for a string, its
tokens; for a collection or iterator, its elements. -/
def candidates : FieldNames → List String
  | FieldNames.str s => strFieldTokens s
  | FieldNames.list xs => xs
  | FieldNames.iter xs => xs

/-- Embedding of `get_field_names` (run.py lines 77-85).

```
def get_field_names(field_names):
    if isinstance(field_names, str):
        names = field_names.replace(",", " ").split()
    else:
        names = field_names
    if not all(n.isidentifier() for n in names):
        raise TypeError("All field names must be identifiers")
    return tuple(names)
```

For a one-shot iterator input the `all(...)` check consumes the
iterator; when every element passes, `tuple(names)` then iterates the
exhausted iterator and produces the empty tuple. -/
def get_field_names : FieldNames → Except PyError (List String)
  | FieldNames.str s =>
    let names := strFieldTokens s
    if names.all isIdentifier then Except.ok names
    else Except.error PyError.invalidFieldName
  | FieldNames.list xs =>
    if xs.all isIdentifier then Except.ok xs
    else Except.error PyError.invalidFieldName
  | FieldNames.iter xs =>
    if xs.all isIdentifier then Except.ok []
    else Except.error PyError.invalidFieldName

/-- The type descriptor `record_factory` returns: the class name and the
`__slots__` tuple. -/
structure RecordType where
  cls_name : String
  slots : List String
deriving DecidableEq

/-- Embedding of `record_factory` (run.py lines 46-74): validate the
field specification, then build the type whose `__slots__` is the
validated tuple.  A validation failure propagates to the caller. -/
def record_factory (cls_name : String) (field_names : FieldNames) :
    Except PyError RecordType :=
  match get_field_names field_names with
  | Except.ok slots => Except.ok ⟨cls_name, slots⟩
  | Except.error e => Except.error e

/-- Lookup in a keyword-argument map (Python `dict`), first match by
key. -/
def lookupKw : List (String × Value) → String → Option Value
  | [], _ => none
  | kv :: rest, n => if kv.1 = n then some kv.2 else lookupKw rest n

/-- Model of `kwargs.pop(name)` on the keyword map: drop the entries
with the given key, keeping order. -/
def removeKey : List (String × Value) → String → List (String × Value)
  | [], _ => []
  | kv :: rest, n => if kv.1 = n then removeKey rest n else kv :: removeKey rest n

/-- Keys removed one after the other, as `Signature.bind`'s second phase
pops each parameter it finds in `kwargs`. -/
def removeKeys (kwargs : List (String × Value)) (names : List String) :
    List (String × Value) :=
  names.foldl removeKey kwargs

/-- Model of constructing
`Signature(Parameter(name=name, kind=POSITIONAL_OR_KEYWORD) for name in slots)`
(run.py lines 50-52): `Parameter` rejects a name that is not an
identifier, and `Signature` rejects a duplicate parameter name, both
with `ValueError`; otherwise the parameter list is the slot list. -/
def mkSignature : List String → List String → Except PyError (List String)
  | [], acc => Except.ok acc.reverse
  | n :: ns, acc =>
    if isIdentifier n then
      if n ∈ acc then Except.error (PyError.duplicateParameterName n)
      else mkSignature ns (n :: acc)
    else Except.error (PyError.invalidParameterName n)

/-- First phase of `inspect.Signature.bind` for a signature whose
parameters are all `POSITIONAL_OR_KEYWOOD` without defaults: walk the
parameters and positional arguments in lockstep.

* a parameter paired with a positional argument that also appears in
  `kwargs` raises `multiple values for argument '<name>'`;
* a positional argument beyond the parameters raises
  `too many positional arguments`;
* when the positional arguments run out, the next parameter (if any)
  must appear in `kwargs`, else `missing a required argument: '<name>'`
  is raised; binding then continues by keyword.

Returns the positionally bound `(name, value)` pairs in parameter order
and the parameters left for th keyword phase. -/
def bindPos (params : List String) (args : List Value)
    (kwargs : List (String × Value)) :
    Except PyError (List (String × Value) × List String) :=
  match params, args with
  | [], [] => Except.ok ([], [])
  | p :: ps, [] =>
    if (lookupKw kwargs p).isSome then Except.ok ([], p :: ps)
    else Except.error (PyError.missingArgument p)
  | [], _ :: _ => Except.error PyError.tooManyPositional
  | p :: ps, a :: as =>
    if (lookupKw kwargs p).isSome then Except.error (PyError.duplicateArgument p)
    else
      match bindPos ps as kwargs with
      | Except.ok (bound, rest) => Except.ok ((p, a) :: bound, rest)
      | Except.error e => Except.error e

/-- Second phase of `inspect.Signature.bind`: each remaining parameter
is popped from `kwargs`; a parameter absent from `kwargs` raises
`missing a required argument: '<name>'`.  Returns the keyword-bound
pairs in parameter order and the unconsumed keyword entries. -/
def bindKw (params : List String) (kwargs : List (String × Value)) :
    Except PyError (List (String × Value) × List (String × Value)) :=
  match params with
  | [] => Except.ok ([], kwargs)
  | p :: ps =>
    match lookupKw kwargs p with
    | some v =>
      match bindKw ps (removeKey kwargs p) with
      | Except.ok (bound, rest) => Except.ok ((p, v) :: bound, rest)
      | Except.error e => Except.error e
    | none => Except.error (PyError.missingArgument p)

/-- Model of `sig.bind(*args, **kwargs)` (run.py line 53): the two
binding phases, then the check that every keyword argument was
consumed — a leftover keyword raises
`got an unexpected keyword argument '<name>'` naming the first leftover
in insertion order.  On success `bound.arguments` holds every parameter
in declared order. -/
def sigBind (params : List String) (args : List Value)
    (kwargs : List (String × Value)) :
    Except PyError (List (String × Value)) :=
  match bindPos params args kwargs with
  | Except.error e => Except.error e
  | Except.ok (posBound, restParams) =>
    match bindKw restParams kwargs with
    | Except.error e => Except.error e
    | Except.ok (kwBound, restKwargs) =>
      match restKwargs with
      | [] => Except.ok (posBound ++ kwBound)
      | kv :: _ => Except.error (PyError.unexpectedArgument kv.1)

/-- An instance's attribute store: the slot names that have been
assigned, each with its current value, in assignment order. -/
abbrev Store := List (String × Value)

/-- Update an existing key's value in place, or append the binding. -/
def setStore : Store → String → Value → Store
  | [], n, v => [(n, v)]
  | kv :: rest, n, v =>
    if kv.1 = n then (kv.1, v) :: rest else kv :: setStore rest n v

/-- Model of `setattr(self, name, value)` on an instance of a class with
`__slots__ = slots` and no `__dict__`: assigning any name outside the
slots raises `AttributeError`. -/
def instSetattr (slots : List String) (store : Store) (name : String)
    (v : Value) : Except PyError Store :=
  if name ∈ slots then Except.ok (setStore store name v)
  else Except.error (PyError.attributeError name)

/-- The `__init__` loop `for name, value in bound.arguments.items():
setattr(self, name, value)` applied to a store. -/
def applyBound (slots : List String) : Store → List (String × Value) →
    Except PyError Store
  | store, [] => Except.ok store
  | store, nv :: rest =>
    match instSetattr slots store nv.1 nv.2 with
    | Except.ok store2 => applyBound slots store2 rest
    | Except.error e => Except.error e

/-- Embedding of the generated type's `__init__` (run.py lines 49-55):
build the `Signature` over the slots, bind the call's arguments, and
`setattr` each bound `(name, value)` pair onto the fresh instance. -/
def recordInit (slots : List String) (args : List Value)
    (kwargs : List (String × Value)) : Except PyError Store :=
  match mkSignature slots [] with
  | Except.error e => Except.error e
  | Except.ok params =>
    match sigBind params args kwargs with
    | Except.error e => Except.error e
    | Except.ok bound => applyBound slots [] bound

/-- Model of `getattr(self, name)` on a slotted instance: an unset slot
raises `AttributeError`. -/
def instGetattr (store : Store) (name : String) : Except PyError Value :=
  match lookupKw store name with
  | some v => Except.ok v
  | none => Except.error (PyError.attributeError name)

/-- Embedding of the generated type's `__iter__` (run.py lines 57-59):
yield `getattr(self, name)` for each name in `self.__slots__`, in
declared order. -/
def recordIter (slots : List String) (store : Store) :
    Except PyError (List Value) :=
  match slots with
  | [] => Except.ok []
  | n :: rest =>
    match instGetattr store n with
    | Except.ok v =>
      match recordIter rest store with
      | Except.ok vs => Except.ok (v :: vs)
      | Except.error e => Except.error e
    | Except.error e => Except.error e

/-- Embedding of the generated type's `__repr__` (run.py lines 61-65):
`"{}({})".format(cls_name, ", ".join(f"{k}={v!r}" for k, v in zip(slots, self)))`.
Iteration errors propagate out of the generator. -/
def recordRepr (cls_name : String) (slots : List String) (store : Store) :
    Except PyError String :=
  match recordIter slots store with
  | Except.ok vs =>
    Except.ok (cls_name ++ "(" ++
      String.intercalate ", "
        ((slots.zip vs).map (fun kv => kv.1 ++ "=" ++ reprV kv.2)) ++ ")")
  | Except.error e => Except.error e

/-- The `Dog` example's slot tuple from the doctest:
`record_factory('Dog', 'name weight owner')`. -/
def dogSlots : List String := ["name", "weight", "owner"]

/-- The store of `Dog('Rex', 30, 'Bob')`. -/
def dogStore : Store :=
  [("name", Value.str "Rex"), ("weight", Value.int 30), ("owner", Value.str "Bob")]

/-! ### Helper lemmas about the keyword map and the attribute store -/

theorem lookupKw_isSome_iff {l : List (String × Value)} {n : String} :
    (lookupKw l n).isSome ↔ n ∈ l.map Prod.fst := by
  induction l with
  | nil => simp [lookupKw]
  | cons kv rest ih =>
    by_cases h : kv.1 = n
    · simp [lookupKw, h]
    · simp [lookupKw, h, ih, Ne.symm h]

theorem lookupKw_eq_none_iff {l : List (String × Value)} {n : String} :
    lookupKw l n = none ↔ n ∉ l.map Prod.fst := by
  rw [← lookupKw_isSome_iff, Option.not_isSome_iff_eq_none]

theorem lookupKw_isSome_of_mem {l : List (String × Value)} {kv : String × Value}
    (h : kv ∈ l) : (lookupKw l kv.1).isSome :=
  lookupKw_isSome_iff.mpr (List.mem_map_of_mem Prod.fst h)

theorem lookupKw_removeKey_ne {l : List (String × Value)} {n q : String}
    (h : q ≠ n) : lookupKw (removeKey l n) q = lookupKw l q := by
  induction l with
  | nil => rfl
  | cons kv rest ih =>
    simp only [removeKey, lookupKw]
    by_cases hk : kv.1 = n
    · have hnq : ¬ (kv.1 = q) := by rw [hk]; exact fun e => h e.symm
      rw [if_pos hk, if_neg hnq, ih]
    · rw [if_neg hk]
      by_cases hq : kv.1 = q
      · simp only [lookupKw, if_pos hq]
      · simp only [lookupKw, if_neg hq, ih]

theorem mem_removeKey {l : List (String × Value)} {n : String}
    {kv : String × Value} : kv ∈ removeKey l n ↔ kv ∈ l ∧ kv.1 ≠ n := by
  induction l with
  | nil => simp [removeKey]
  | cons kv' rest ih =>
    by_cases hk : kv'.1 = n
    · constructor
      · intro h
        rw [removeKey, if_pos hk] at h
        exact ⟨List.mem_cons_of_mem _ (ih.mp h).1, (ih.mp h).2⟩
      · rintro ⟨h1, h2⟩
        rw [removeKey, if_pos hk]
        rcases List.mem_cons.mp h1 with he | hm
        · exact absurd (he ▸ hk) h2
        · exact ih.mpr ⟨hm, h2⟩
    · constructor
      · intro h
        rw [removeKey, if_neg hk] at h
        rcases List.mem_cons.mp h with he | hm
        · exact ⟨he ▸ List.mem_cons_self _ _, he ▸ hk⟩
        · exact ⟨List.mem_cons_of_mem _ (ih.mp hm).1, (ih.mp hm).2⟩
      · rintro ⟨h1, h2⟩
        rw [removeKey, if_neg hk]
        rcases List.mem_cons.mp h1 with he | hm
        · exact he ▸ List.mem_cons_self _ _
        · exact List.mem_cons_of_mem _ (ih.mpr ⟨hm, h2⟩)

theorem removeKeys_nil_names (l : List (String × Value)) :
    removeKeys l [] = l := rfl

theorem removeKeys_cons (l : List (String × Value)) (n : String)
    (ns : List String) : removeKeys l (n :: ns) = removeKeys (removeKey l n) ns := rfl

theorem mem_removeKeys {ns : List String} {l : List (String × Value)}
    {kv : String × Value} : kv ∈ removeKeys l ns ↔ kv ∈ l ∧ kv.1 ∉ ns := by
  induction ns generalizing l with
  | nil => simp [removeKeys_nil_names]
  | cons n ns ih =>
    rw [removeKeys_cons, ih]
    constructor
    · rintro ⟨h1, h2⟩
      obtain ⟨hm, hne⟩ := mem_removeKey.mp h1
      exact ⟨hm, by simp [hne, h2]⟩
    · rintro ⟨h1, h2⟩
      simp only [List.mem_cons, not_or] at h2
      exact ⟨mem_removeKey.mpr ⟨h1, h2.1⟩, h2.2⟩

theorem removeKeys_eq_nil {l : List (String × Value)} {ns : List String}
    (h : ∀ kv ∈ l, kv.1 ∈ ns) : removeKeys l ns = [] := by
  cases he : removeKeys l ns with
  | nil => rfl
  | cons kv rest =>
    have : kv ∈ removeKeys l ns := he ▸ List.mem_cons_self kv rest
    obtain ⟨hm, hn⟩ := mem_removeKeys.mp this
    exact absurd (h kv hm) hn

theorem setStore_not_mem {store : Store} {n : String} (v : Value)
    (h : n ∉ store.map Prod.fst) : setStore store n v = store ++ [(n, v)] := by
  induction store with
  | nil => rfl
  | cons kv rest ih =>
    simp only [List.map_cons, List.mem_cons, not_or] at h
    rw [setStore, if_neg (fun e => h.1 e.symm), ih h.2]
    rfl

theorem lookupKw_setStore_self (store : Store) (n : String) (v : Value) :
    lookupKw (setStore store n v) n = some v := by
  induction store with
  | nil => simp [setStore, lookupKw]
  | cons kv rest ih =>
    by_cases hk : kv.1 = n <;> simp [setStore, lookupKw, hk, ih]

theorem lookupKw_setStore_ne {store : Store} {n q : String} (v : Value)
    (h : q ≠ n) : lookupKw (setStore store n v) q = lookupKw store q := by
  induction store with
  | nil =>
    simp only [setStore, lookupKw]
    rw [if_neg (fun e => h e.symm)]
  | cons kv rest ih =>
    simp only [setStore]
    by_cases hk : kv.1 = n
    · have hnq : ¬ (kv.1 = q) := by rw [hk]; exact fun e => h e.symm
      rw [if_pos hk]
      simp only [lookupKw]
      rw [if_neg hnq, if_neg hnq]
    · rw [if_neg hk]
      simp only [lookupKw]
      by_cases hq : kv.1 = q
      · rw [if_pos hq, if_pos hq]
      · rw [if_neg hq, if_neg hq, ih]

theorem map_fst_setStore {store : Store} {n : String} (v : Value)
    (h : n ∈ store.map Prod.fst) :
    (setStore store n v).map Prod.fst = store.map Prod.fst := by
  induction store with
  | nil => simp at h
  | cons kv rest ih =>
    by_cases hk : kv.1 = n
    · simp [setStore, hk]
    · simp only [List.map_cons, List.mem_cons] at h
      rcases h with he | hm
      · exact absurd he.symm hk
      · simp [setStore, hk, ih hm]

theorem zip_fst_snd (l : List (String × Value)) :
    (l.map Prod.fst).zip (l.map Prod.snd) = l := by
  induction l with
  | nil => rfl
  | cons kv rest ih => simp [ih]

theorem zip_map_self (l : List String) (g : String → Value) :
    l.zip (l.map g) = l.map (fun a => (a, g a)) := by
  induction l with
  | nil => rfl
  | cons a rest ih => simp [ih]


/-! ### Behavior of the two binding phases -/

theorem bindPos_spec (P : List String) (args : List Value) (R : List String)
    (kwargs : List (String × Value)) (hlen : P.length = args.length)
    (hnone : ∀ p ∈ P, lookupKw kwargs p = none) :
    bindPos (P ++ R) args kwargs =
      match R with
      | [] => Except.ok (P.zip args, [])
      | p :: ps =>
        if (lookupKw kwargs p).isSome then Except.ok (P.zip args, p :: ps)
        else Except.error (PyError.missingArgument p) := by
  induction P generalizing args with
  | nil =>
    have : args = [] := List.eq_nil_of_length_eq_zero hlen.symm
    subst this
    cases R with
    | nil => rfl
    | cons p ps => rfl
  | cons p P' ih =>
    cases args with
    | nil => simp at hlen
    | cons a args' =>
      have hp : lookupKw kwargs p = none := hnone p (List.mem_cons_self _ _)
      have hlen' : P'.length = args'.length := by simpa using hlen
      have hnone' : ∀ q ∈ P', lookupKw kwargs q = none :=
        fun q hq => hnone q (List.mem_cons_of_mem _ hq)
      have hrec := ih args' hlen' hnone'
      simp only [List.cons_append, bindPos, hp, Option.isSome_none, Bool.false_eq_true,
        if_false, List.append_eq]
      rw [hrec]
      cases R with
      | nil => simp
      | cons r rs =>
        by_cases hr : (lookupKw kwargs r).isSome
        · simp [hr]
        · simp [hr]

theorem bindKw_ok (params : List String) (kwargs : List (String × Value))
    (hnd : params.Nodup) (hsome : ∀ p ∈ params, (lookupKw kwargs p).isSome) :
    bindKw params kwargs =
      Except.ok
        (params.map (fun p => (p, (lookupKw kwargs p).getD (Value.int 0))),
         removeKeys kwargs params) := by
  induction params generalizing kwargs with
  | nil => rfl
  | cons p ps ih =>
    obtain ⟨v, hv⟩ := Option.isSome_iff_exists.mp (hsome p (List.mem_cons_self _ _))
    have hnd' : ps.Nodup := (List.nodup_cons.mp hnd).2
    have hps : p ∉ ps := (List.nodup_cons.mp hnd).1
    have hsome' : ∀ q ∈ ps, (lookupKw (removeKey kwargs p) q).isSome := by
      intro q hq
      have hne : q ≠ p := fun e => hps (e ▸ hq)
      rw [lookupKw_removeKey_ne hne]
      exact hsome q (List.mem_cons_of_mem _ hq)
    have hrec := ih (removeKey kwargs p) hnd' hsome'
    have hmap : (ps.map fun q => (q, (lookupKw (removeKey kwargs p) q).getD (Value.int 0)))
        = ps.map fun q => (q, (lookupKw kwargs q).getD (Value.int 0)) := by
      refine List.map_congr_left (fun q hq => ?_)
      have hne : q ≠ p := fun e => hps (e ▸ hq)
      rw [lookupKw_removeKey_ne hne]
    simp only [bindKw, hv, hrec, hmap, removeKeys_cons, List.map_cons, Option.getD_some]

theorem bindKw_missing (params : List String) (kwargs : List (String × Value))
    (hnd : params.Nodup) (hmiss : ∃ p ∈ params, lookupKw kwargs p = none) :
    ∃ q ∈ params, lookupKw kwargs q = none ∧
      bindKw params kwargs = Except.error (PyError.missingArgument q) := by
  induction params generalizing kwargs with
  | nil => simp at hmiss
  | cons p ps ih =>
    by_cases hp : lookupKw kwargs p = none
    · exact ⟨p, List.mem_cons_self _ _, hp, by simp only [bindKw, hp]⟩
    · obtain ⟨v, hv⟩ :=
        Option.isSome_iff_exists.mp (Option.ne_none_iff_isSome.mp hp)
      have hps : p ∉ ps := (List.nodup_cons.mp hnd).1
      obtain ⟨p₀, hp₀m, hp₀⟩ := hmiss
      have hp₀ps : p₀ ∈ ps := by
        rcases List.mem_cons.mp hp₀m with he | hm
        · exact absurd (he ▸ hp₀) hp
        · exact hm
      have hne₀ : p₀ ≠ p := fun e => hps (e ▸ hp₀ps)
      have hmiss' : ∃ q ∈ ps, lookupKw (removeKey kwargs p) q = none :=
        ⟨p₀, hp₀ps, by rw [lookupKw_removeKey_ne hne₀]; exact hp₀⟩
      obtain ⟨q, hqm, hqnone, hqbind⟩ := ih (removeKey kwargs p)
        (List.nodup_cons.mp hnd).2 hmiss'
      have hneq : q ≠ p := fun e => hps (e ▸ hqm)
      refine ⟨q, List.mem_cons_of_mem _ hqm, ?_, ?_⟩
      · rw [← lookupKw_removeKey_ne hneq]
        exact hqnone
      · simp only [bindKw, hv, hqbind]

/-! ### Signature construction, attribute assignment, iteration -/

theorem mkSignature_go (ns : List String) (acc : List String)
    (hid : ∀ n ∈ ns, isIdentifier n = true) (hnd : ns.Nodup)
    (hacc : ∀ n ∈ ns, n ∉ acc) :
    mkSignature ns acc = Except.ok (acc.reverse ++ ns) := by
  induction ns generalizing acc with
  | nil => simp [mkSignature]
  | cons n ns' ih =>
    rw [mkSignature, if_pos (hid n (List.mem_cons_self _ _)),
      if_neg (hacc n (List.mem_cons_self _ _))]
    have hn : n ∉ ns' := (List.nodup_cons.mp hnd).1
    have hacc' : ∀ m ∈ ns', m ∉ n :: acc := by
      intro m hm
      simp only [List.mem_cons, not_or]
      exact ⟨fun e => hn (e ▸ hm), hacc m (List.mem_cons_of_mem _ hm)⟩
    rw [ih (n :: acc) (fun m hm => hid m (List.mem_cons_of_mem _ hm))
      (List.nodup_cons.mp hnd).2 hacc']
    simp

theorem mkSignature_ok (slots : List String)
    (hid : slots.all isIdentifier = true) (hnd : slots.Nodup) :
    mkSignature slots [] = Except.ok slots := by
  have := mkSignature_go slots [] (List.all_eq_true.mp hid) hnd (by simp)
  simpa using this

theorem applyBound_ok (bound : List (String × Value)) (store : Store)
    (slots : List String) (hsl : ∀ kv ∈ bound, kv.1 ∈ slots)
    (hdisj : ∀ kv ∈ bound, kv.1 ∉ store.map Prod.fst)
    (hnd : (bound.map Prod.fst).Nodup) :
    applyBound slots store bound = Except.ok (store ++ bound) := by
  induction bound generalizing store with
  | nil => simp [applyBound]
  | cons kv rest ih =>
    have hmem : kv.1 ∈ slots := hsl kv (List.mem_cons_self _ _)
    have hset : setStore store kv.1 kv.2 = store ++ [kv] := by
      rw [setStore_not_mem kv.2 (hdisj kv (List.mem_cons_self _ _))]
    simp only [applyBound, instSetattr, if_pos hmem, hset]
    have hnd' : (rest.map Prod.fst).Nodup := by
      simpa using (List.nodup_cons.mp (by simpa using hnd)).2
    have hhead : kv.1 ∉ rest.map Prod.fst :=
      (List.nodup_cons.mp (by simpa using hnd)).1
    have hdisj' : ∀ kv' ∈ rest, kv'.1 ∉ (store ++ [kv]).map Prod.fst := by
      intro kv' hm
      simp only [List.map_append, List.mem_append, List.map_cons, List.map_nil,
        List.mem_singleton, not_or]
      refine ⟨hdisj kv' (List.mem_cons_of_mem _ hm), fun e => ?_⟩
      exact hhead (e ▸ List.mem_map_of_mem Prod.fst hm)
    rw [ih (store ++ [kv]) (fun kv' hm => hsl kv' (List.mem_cons_of_mem _ hm)) hdisj' hnd']
    simp

theorem recordIter_lookup (slots : List String) (store : Store)
    (h : ∀ q ∈ slots, (lookupKw store q).isSome) :
    recordIter slots store =
      Except.ok (slots.map fun q => (lookupKw store q).getD (Value.int 0)) := by
  induction slots with
  | nil => rfl
  | cons n rest ih =>
    obtain ⟨v, hv⟩ := Option.isSome_iff_exists.mp (h n (List.mem_cons_self _ _))
    rw [recordIter, instGetattr, hv, ih (fun q hq => h q (List.mem_cons_of_mem _ hq))]
    simp [hv]

theorem map_lookup_eq_snd (store : Store) (slots : List String)
    (hnd : slots.Nodup) (hkeys : store.map Prod.fst = slots) :
    (slots.map fun q => (lookupKw store q).getD (Value.int 0)) =
      store.map Prod.snd := by
  induction store generalizing slots with
  | nil =>
    have : slots = [] := by simpa using hkeys.symm
    subst this
    rfl
  | cons kv store' ih =>
    have hs : slots = kv.1 :: store'.map Prod.fst := by
      rw [← hkeys]; rfl
    subst hs
    have hnotin : kv.1 ∉ store'.map Prod.fst := (List.nodup_cons.mp hnd).1
    have hhead : lookupKw (kv :: store') kv.1 = some kv.2 := by
      simp [lookupKw]
    have htail : ∀ q ∈ store'.map Prod.fst,
        lookupKw (kv :: store') q = lookupKw store' q := by
      intro q hq
      have : ¬ (kv.1 = q) := fun e => hnotin (e ▸ hq)
      simp [lookupKw, this]
    simp only [List.map_cons, hhead, Option.getD_some]
    rw [List.map_congr_left (fun q hq => by rw [htail q hq]),
      ih (store'.map Prod.fst) (List.nodup_cons.mp hnd).2 rfl]

theorem recordIter_ok (slots : List String) (store : Store)
    (hnd : slots.Nodup) (hkeys : store.map Prod.fst = slots) :
    recordIter slots store = Except.ok (store.map Prod.snd) := by
  rw [recordIter_lookup slots store
    (fun q hq => lookupKw_isSome_iff.mpr (by rw [hkeys]; exact hq))]
  rw [map_lookup_eq_snd store slots hnd hkeys]

/-! ### Composite behavior of `sigBind` and `recordInit` -/

theorem sigBind_ok (slots : List String) (args : List Value)
    (kwargs : List (String × Value)) (hnd : slots.Nodup)
    (hlen : args.length ≤ slots.length)
    (hpos : ∀ p ∈ slots.take args.length, lookupKw kwargs p = none)
    (hcov : ∀ p ∈ slots.drop args.length, (lookupKw kwargs p).isSome) :
    sigBind slots args kwargs =
      match removeKeys kwargs (slots.drop args.length) with
      | [] =>
        Except.ok ((slots.take args.length).zip args ++
          (slots.drop args.length).map
            (fun p => (p, (lookupKw kwargs p).getD (Value.int 0))))
      | kv :: _ => Except.error (PyError.unexpectedArgument kv.1) := by
  have hsplit : slots.take args.length ++ slots.drop args.length = slots :=
    List.take_append_drop _ _
  have hlenP : (slots.take args.length).length = args.length := by
    rw [List.length_take]
    exact Nat.min_eq_left hlen
  have hndR : (slots.drop args.length).Nodup := by
    rw [← hsplit] at hnd
    exact hnd.of_append_right
  have hb := bindPos_spec (slots.take args.length) args
    (slots.drop args.length) kwargs hlenP hpos
  rw [hsplit] at hb
  cases hR : slots.drop args.length with
  | nil =>
    rw [hR] at hb
    simp only at hb
    simp only [sigBind, hb, bindKw, removeKeys_nil_names, List.map_nil]
  | cons r rs =>
    have hrs : (lookupKw kwargs r).isSome := hcov r (by rw [hR]; exact List.mem_cons_self _ _)
    rw [hR] at hb
    simp only [hrs, if_true] at hb
    rw [hR] at hndR
    have hcov' : ∀ p ∈ r :: rs, (lookupKw kwargs p).isSome := by
      intro p hp
      exact hcov p (by rw [hR]; exact hp)
    have hkw := bindKw_ok (r :: rs) kwargs hndR hcov'
    simp only [sigBind, hb, hkw]

theorem recordInit_ok (slots : List String) (args : List Value)
    (kwargs : List (String × Value)) (hid : slots.all isIdentifier = true)
    (hnd : slots.Nodup) (hlen : args.length ≤ slots.length)
    (hpos : ∀ p ∈ slots.take args.length, lookupKw kwargs p = none)
    (hcov : ∀ p ∈ slots.drop args.length, (lookupKw kwargs p).isSome)
    (hall : ∀ kv ∈ kwargs, kv.1 ∈ slots.drop args.length) :
    recordInit slots args kwargs =
      Except.ok ((slots.take args.length).zip args ++
        (slots.drop args.length).map
          (fun p => (p, (lookupKw kwargs p).getD (Value.int 0)))) := by
  have hsplit : slots.take args.length ++ slots.drop args.length = slots :=
    List.take_append_drop _ _
  have hlenP : (slots.take args.length).length = args.length := by
    rw [List.length_take]
    exact Nat.min_eq_left hlen
  have hrem : removeKeys kwargs (slots.drop args.length) = [] :=
    removeKeys_eq_nil hall
  have hsb := sigBind_ok slots args kwargs hnd hlen hpos hcov
  rw [hrem] at hsb
  simp only at hsb
  have hkeys : (((slots.take args.length).zip args ++
      (slots.drop args.length).map
        (fun p => (p, (lookupKw kwargs p).getD (Value.int 0)))).map Prod.fst)
      = slots := by
    rw [List.map_append, List.map_fst_zip _ _ (le_of_eq hlenP), List.map_map]
    have : (Prod.fst ∘ fun p =>
        ((p, (lookupKw kwargs p).getD (Value.int 0)) : String × Value)) = id := rfl
    rw [this, List.map_id, hsplit]
  simp only [recordInit, mkSignature_ok slots hid hnd, hsb]
  rw [applyBound_ok _ [] slots
    (fun kv hkv => by
      rw [← hkeys]
      exact List.mem_map_of_mem Prod.fst hkv)
    (fun kv _ => by simp)
    (by rw [hkeys]; exact hnd)]
  simp

theorem bindPos_duplicate (params : List String) (args : List Value)
    (kwargs : List (String × Value))
    (hdup : ∃ p ∈ params.take args.length, (lookupKw kwargs p).isSome) :
    ∃ q ∈ params.take args.length, (lookupKw kwargs q).isSome ∧
      bindPos params args kwargs = Except.error (PyError.duplicateArgument q) := by
  induction params generalizing args with
  | nil => simp at hdup
  | cons p ps ih =>
    cases args with
    | nil => simp at hdup
    | cons a as =>
      by_cases hp : (lookupKw kwargs p).isSome
      · refine ⟨p, ?_, hp, ?_⟩
        · simp
        · simp only [bindPos, hp, if_true]
      · obtain ⟨p₀, hm, hs⟩ := hdup
        have hm' : p₀ ∈ ps.take as.length := by
          simp only [List.length_cons, List.take_succ_cons, List.mem_cons] at hm
          rcases hm with he | h
          · exact absurd (he ▸ hs) hp
          · exact h
        obtain ⟨q, hqm, hqs, hqerr⟩ := ih as ⟨p₀, hm', hs⟩
        refine ⟨q, ?_, hqs, ?_⟩
        · simp only [List.length_cons, List.take_succ_cons, List.mem_cons]
          exact Or.inr hqm
        · simp only [bindPos, hp, Bool.false_eq_true, if_false, hqerr]

theorem map_fst_setStore_mem {store : Store} {n q : String} {v : Value}
    (h : q ∈ (setStore store n v).map Prod.fst) :
    q ∈ store.map Prod.fst ∨ q = n := by
  induction store with
  | nil =>
    simp only [setStore, List.map_cons, List.map_nil, List.mem_singleton] at h
    exact Or.inr h
  | cons kv rest ih =>
    simp only [setStore] at h
    by_cases hk : kv.1 = n
    · rw [if_pos hk] at h
      simp only [List.map_cons, List.mem_cons] at h ⊢
      rcases h with he | hm
      · exact Or.inl (Or.inl he)
      · exact Or.inl (Or.inr hm)
    · rw [if_neg hk] at h
      simp only [List.map_cons, List.mem_cons] at h ⊢
      rcases h with he | hm
      · exact Or.inl (Or.inl he)
      · rcases ih hm with h1 | h2
        · exact Or.inl (Or.inr h1)
        · exact Or.inr h2

theorem applyBound_keys (bound : List (String × Value)) (store store₀ : Store)
    (slots : List String) (h : applyBound slots store bound = Except.ok store₀)
    (hstart : ∀ q ∈ store.map Prod.fst, q ∈ slots) :
    ∀ q ∈ store₀.map Prod.fst, q ∈ slots := by
  induction bound generalizing store with
  | nil =>
    simp only [applyBound] at h
    cases h
    exact hstart
  | cons kv rest ih =>
    simp only [applyBound, instSetattr] at h
    by_cases hk : kv.1 ∈ slots
    · rw [if_pos hk] at h
      refine ih (setStore store kv.1 kv.2) h ?_
      intro q hq
      rcases map_fst_setStore_mem hq with h1 | h2
      · exact hstart q h1
      · exact h2 ▸ hk
    · rw [if_neg hk] at h
      cases h

/-! ### Tokenization and validation helpers -/

theorem splitTokens_replace (cs : List Char) (cur : List Char) :
    splitTokens isPySpace (cs.map (fun c => if c = ',' then ' ' else c)) cur =
      splitTokens (fun c => isPySpace c || c = ',') cs cur := by
  induction cs generalizing cur with
  | nil => rfl
  | cons c cs ih =>
    by_cases hc : c = ','
    · subst hc
      simp [splitTokens, isPySpace, ih]
    · simp only [List.map_cons, splitTokens]
      have hmap : (if c = ',' then ' ' else c) = c := by simp [hc]
      have hsep : (isPySpace c || decide (c = ',')) = isPySpace c := by
        simp [hc]
      rw [hmap]
      simp only [hsep]
      by_cases hs : isPySpace c = true
      · rw [if_pos hs, if_pos hs]
        by_cases hcur : cur.isEmpty
        · rw [if_pos hcur, if_pos hcur, ih]
        · rw [if_neg hcur, if_neg hcur, ih]
      · rw [if_neg hs, if_neg hs, ih]

theorem strFieldTokens_eq_spec (s : String) :
    strFieldTokens s = specFieldTokens s := by
  unfold strFieldTokens specFieldTokens pyReplaceCommaSpace
  rw [splitTokens_replace]

theorem all_isIdentifier_false {xs : List String} {x : String}
    (hm : x ∈ xs) (hx : isIdentifier x = false) :
    xs.all isIdentifier = false := by
  cases hall : xs.all isIdentifier
  · rfl
  · exact absurd (List.all_eq_true.mp hall x hm) (by simp [hx])

/-! ### The claims -/

/-- C1: for every generated record type (its slots are validated
identifiers without duplicates) and every construction call in which
each declared field receives exactly one value — positional arguments
bound to the field names in declared order, every remaining field
supplied by keyword, matched by name in any order — construction
succeeds, sets each field to its bound value, and iterating the
resulting instance yields exactly those field values in declared field
order. -/
theorem C1_construction_and_iteration (slots : List String) (args : List Value)
    (kwargs : List (String × Value)) (hid : slots.all isIdentifier = true)
    (hnd : slots.Nodup) (hlen : args.length ≤ slots.length)
    (hperm : List.Perm (kwargs.map Prod.fst) (slots.drop args.length)) :
    ∃ store, recordInit slots args kwargs = Except.ok store ∧
      store.map Prod.fst = slots ∧
      recordIter slots store =
        Except.ok (args ++ (slots.drop args.length).map
          (fun p => (lookupKw kwargs p).getD (Value.int 0))) := by
  have hsplit : slots.take args.length ++ slots.drop args.length = slots :=
    List.take_append_drop _ _
  have hlenP : (slots.take args.length).length = args.length := by
    rw [List.length_take]
    exact Nat.min_eq_left hlen
  have hdisj : List.Disjoint (slots.take args.length) (slots.drop args.length) := by
    rw [← hsplit] at hnd
    exact List.disjoint_of_nodup_append hnd
  have hnd' : slots.Nodup := by rw [← hsplit] at hnd ⊢; exact hnd
  have hcov : ∀ p ∈ slots.drop args.length, (lookupKw kwargs p).isSome :=
    fun p hp => lookupKw_isSome_iff.mpr (hperm.mem_iff.mpr hp)
  have hpos : ∀ p ∈ slots.take args.length, lookupKw kwargs p = none := by
    intro p hp
    rw [lookupKw_eq_none_iff]
    intro hk
    exact hdisj hp (hperm.mem_iff.mp hk)
  have hall : ∀ kv ∈ kwargs, kv.1 ∈ slots.drop args.length :=
    fun kv hkv => hperm.mem_iff.mp (List.mem_map_of_mem Prod.fst hkv)
  have hinit := recordInit_ok slots args kwargs hid hnd' hlen hpos hcov hall
  have hkeys : (((slots.take args.length).zip args ++
      (slots.drop args.length).map
        (fun p => (p, (lookupKw kwargs p).getD (Value.int 0)))).map Prod.fst)
      = slots := by
    rw [List.map_append, List.map_fst_zip _ _ (le_of_eq hlenP), List.map_map]
    have hcomp : (Prod.fst ∘ fun p =>
        ((p, (lookupKw kwargs p).getD (Value.int 0)) : String × Value)) = id := rfl
    rw [hcomp, List.map_id, hsplit]
  refine ⟨_, hinit, hkeys, ?_⟩
  rw [recordIter_ok _ _ hnd' hkeys, List.map_append,
    List.map_snd_zip _ _ (ge_of_eq hlenP), List.map_map]
  have hcomp : (Prod.snd ∘ fun p =>
      ((p, (lookupKw kwargs p).getD (Value.int 0)) : String × Value)) =
      fun p => (lookupKw kwargs p).getD (Value.int 0) := rfl
  rw [hcomp]

/-- C1 witness: `Dog('Rex', 30, owner='Bob')` constructs the instance
whose iteration yields `('Rex', 30, 'Bob')`. -/
theorem C1_construction_and_iteration_witness :
    recordInit dogSlots [Value.str "Rex", Value.int 30]
      [("owner", Value.str "Bob")] = Except.ok dogStore ∧
    recordIter dogSlots dogStore =
      Except.ok [Value.str "Rex", Value.int 30, Value.str "Bob"] := by
  obtain ⟨store, h1, h2, h3⟩ := C1_construction_and_iteration dogSlots
    [Value.str "Rex", Value.int 30] [("owner", Value.str "Bob")]
    (by decide) (by decide) (by decide) (by decide)
  have hd : recordInit dogSlots [Value.str "Rex", Value.int 30]
      [("owner", Value.str "Bob")] = Except.ok dogStore := by rfl
  have hst : store = dogStore := by
    have := h1.symm.trans hd
    injection this
  subst hst
  exact ⟨hd, h3.trans (by rfl)⟩

/-- C2: for every instance of a generated record type (its attribute
store holds exactly the declared fields in declared order, as every
constructed instance does), the display output equals the type name
followed by a parenthesized, comma-and-space separated list of
`field=value` pairs in declared field order, each value rendered by
`repr` (strings quoted). -/
theorem C2_display (cls_name : String) (slots : List String) (store : Store)
    (hnd : slots.Nodup) (hkeys : store.map Prod.fst = slots) :
    recordRepr cls_name slots store =
      Except.ok (cls_name ++ "(" ++
        String.intercalate ", "
          (store.map (fun kv => kv.1 ++ "=" ++ reprV kv.2)) ++ ")") := by
  simp only [recordRepr, recordIter_ok slots store hnd hkeys]
  rw [← hkeys, zip_fst_snd]

/-- C2 witness: the `Dog` instance constructed from
`('Rex', 30, 'Bob')` displays as `Dog(name='Rex', weight=30, owner='Bob')`. -/
theorem C2_display_witness :
    recordRepr "Dog" dogSlots dogStore =
      Except.ok "Dog(name='Rex', weight=30, owner='Bob')" :=
  (C2_display "Dog" dogSlots dogStore (by decide) (by decide)).trans (by rfl)

/-- C3: the validator splits a string field specification on whitespace
and commas (comma an additional separator), preserving token order and
discarding empty tokens — the code's replace-then-split equals the
direct whitespace-or-comma split — and for every field specification
(string or ordered collection) whose candidate names are all valid
identifiers it returns exactly those names, in input order. -/
theorem C3_validator_order :
    (∀ s : String, strFieldTokens s = specFieldTokens s) ∧
    (∀ s : String, (strFieldTokens s).all isIdentifier = true →
      get_field_names (FieldNames.str s) = Except.ok (specFieldTokens s)) ∧
    (∀ xs : List String, xs.all isIdentifier = true →
      get_field_names (FieldNames.list xs) = Except.ok xs) := by
  refine ⟨strFieldTokens_eq_spec, fun s h => ?_, fun xs h => ?_⟩
  · simp only [get_field_names, h, if_true]
    rw [strFieldTokens_eq_spec]
  · simp only [get_field_names, h, if_true]

/-- C3 witness: `'name, weight owner'` splits into
`('name', 'weight', 'owner')` and validates to exactly those names; a
list input validates to itself. -/
theorem C3_validator_order_witness :
    strFieldTokens "name, weight owner" = specFieldTokens "name, weight owner" ∧
    get_field_names (FieldNames.str "name, weight owner") =
      Except.ok ["name", "weight", "owner"] ∧
    get_field_names (FieldNames.list ["name", "weight", "owner"]) =
      Except.ok ["name", "weight", "owner"] := by
  refine ⟨C3_validator_order.1 "name, weight owner", ?_, ?_⟩
  · exact (C3_validator_order.2.1 "name, weight owner" (by decide)).trans (by rfl)
  · exact C3_validator_order.2.2 ["name", "weight", "owner"] (by decide)

/-- C4 counterexample: the claim predicts that the reserved keyword
`class` is rejected as a field name, but `str.isidentifier` accepts
keywords, so validation succeeds and the factory returns a type with
field `class`. -/
theorem C4_counterexample :
    get_field_names (FieldNames.list ["class"]) = Except.ok ["class"] ∧
    record_factory "Cat" (FieldNames.list ["class"]) =
      Except.ok ⟨"Cat", ["class"]⟩ := by
  constructor
  · rfl
  · rfl

/-- C4 (amended): for every field specification containing at least one
candidate name that is not a valid identifier — non-empty, consisting of
letters/digits/underscore, not starting with a digit; reserved keywords
are NOT excluded, since `str.isidentifier` is purely lexical —
validation fails with the `InvalidFieldNameError`
(`TypeError("All field names must be identifiers")`), and the factory
propagates this failure to the caller unchanged. -/
theorem C4_invalid_name_rejected (cls_name : String) (fn : FieldNames)
    (h : ∃ x ∈ candidates fn, isIdentifier x = false) :
    get_field_names fn = Except.error PyError.invalidFieldName ∧
    record_factory cls_name fn = Except.error PyError.invalidFieldName := by
  obtain ⟨x, hm, hx⟩ := h
  cases fn with
  | str s =>
    have hall : (strFieldTokens s).all isIdentifier = false :=
      all_isIdentifier_false (by simpa [candidates] using hm) hx
    simp only [get_field_names, record_factory, hall, Bool.false_eq_true, if_false]
    exact ⟨trivial, trivial⟩
  | list xs =>
    have hall : xs.all isIdentifier = false :=
      all_isIdentifier_false (by simpa [candidates] using hm) hx
    simp only [get_field_names, record_factory, hall, Bool.false_eq_true, if_false]
    exact ⟨trivial, trivial⟩
  | iter xs =>
    have hall : xs.all isIdentifier = false :=
      all_isIdentifier_false (by simpa [candidates] using hm) hx
    simp only [get_field_names, record_factory, hall, Bool.false_eq_true, if_false]
    exact ⟨trivial, trivial⟩

/-- C4 witness: the doctest's `record_factory('Cat', ['2name', 'weight',
'owner'])` fails validation, and the factory surfaces the error. -/
theorem C4_invalid_name_rejected_witness :
    get_field_names (FieldNames.list ["2name", "weight", "owner"]) =
      Except.error PyError.invalidFieldName ∧
    record_factory "Cat" (FieldNames.list ["2name", "weight", "owner"]) =
      Except.error PyError.invalidFieldName :=
  C4_invalid_name_rejected "Cat" (FieldNames.list ["2name", "weight", "owner"])
    (by decide)

/-- C5: for every generated record type, a construction call that
leaves some declared field with no value after positional and keyword
binding (and binds no field twice, since a duplicate is detected first)
fails with the `MissingArgumentError` naming a field that received no
value, and no instance is produced. -/
theorem C5_missing_argument (slots : List String) (args : List Value)
    (kwargs : List (String × Value)) (hid : slots.all isIdentifier = true)
    (hnd : slots.Nodup)
    (hpos : ∀ p ∈ slots.take args.length, lookupKw kwargs p = none)
    (hmiss : ∃ p ∈ slots.drop args.length, lookupKw kwargs p = none) :
    ∃ q ∈ slots.drop args.length, lookupKw kwargs q = none ∧
      recordInit slots args kwargs = Except.error (PyError.missingArgument q) := by
  have hlen : args.length ≤ slots.length := by
    by_contra hgt
    push_neg at hgt
    have hnil : slots.drop args.length = [] :=
      List.drop_eq_nil_of_le (le_of_lt hgt)
    rw [hnil] at hmiss
    simp at hmiss
  have hsplit : slots.take args.length ++ slots.drop args.length = slots :=
    List.take_append_drop _ _
  have hlenP : (slots.take args.length).length = args.length := by
    rw [List.length_take]
    exact Nat.min_eq_left hlen
  have hndR : (slots.drop args.length).Nodup := by
    rw [← hsplit] at hnd ⊢
    rw [hsplit]
    exact hnd.of_append_right
  have hb := bindPos_spec (slots.take args.length) args
    (slots.drop args.length) kwargs hlenP hpos
  rw [hsplit] at hb
  cases hR : slots.drop args.length with
  | nil =>
    rw [hR] at hmiss
    simp at hmiss
  | cons r rs =>
    rw [hR] at hb hmiss hndR
    by_cases hr : (lookupKw kwargs r).isSome
    · simp only [hr, if_true] at hb
      obtain ⟨q, hqm, hqn, hqerr⟩ := bindKw_missing (r :: rs) kwargs hndR hmiss
      refine ⟨q, hqm, hqn, ?_⟩
      simp only [recordInit, mkSignature_ok slots hid hnd, sigBind, hb, hqerr]
    · simp only at hb
      rw [if_neg hr] at hb
      have hrn : lookupKw kwargs r = none := by
        cases hl : lookupKw kwargs r
        · rfl
        · exact absurd (by rw [hl]; rfl) hr
      refine ⟨r, List.mem_cons_self _ _, hrn, ?_⟩
      simp only [recordInit, mkSignature_ok slots hid hnd, sigBind, hb]

/-- C5 witness: `Dog('Rex', 30)` for the three declared fields fails
with the missing-argument error naming `owner`. -/
theorem C5_missing_argument_witness :
    recordInit dogSlots [Value.str "Rex", Value.int 30] [] =
      Except.error (PyError.missingArgument "owner") := by
  obtain ⟨q, hqm, hqn, herr⟩ := C5_missing_argument dogSlots
    [Value.str "Rex", Value.int 30] [] (by decide) (by decide)
    (by decide) (by decide)
  have hq : q = "owner" := by
    simpa [dogSlots] using hqm
  rw [hq] at herr
  exact herr

/-- C6: for every generated record type, a construction call in which
some declared field receives both a positional value and a keyword
value fails with the `DuplicateArgumentError` naming such a field, and
no instance is produced. -/
theorem C6_duplicate_argument (slots : List String) (args : List Value)
    (kwargs : List (String × Value)) (hid : slots.all isIdentifier = true)
    (hnd : slots.Nodup)
    (hdup : ∃ p ∈ slots.take args.length, (lookupKw kwargs p).isSome) :
    ∃ q ∈ slots.take args.length, (lookupKw kwargs q).isSome ∧
      recordInit slots args kwargs = Except.error (PyError.duplicateArgument q) := by
  obtain ⟨q, hqm, hqs, hqerr⟩ := bindPos_duplicate slots args kwargs hdup
  refine ⟨q, hqm, hqs, ?_⟩
  simp only [recordInit, mkSignature_ok slots hid hnd, sigBind, hqerr]

/-- C6 witness: `Dog('Rex', 30, 'Bob', owner='Bob')` fails with the
duplicate-argument error naming `owner`. -/
theorem C6_duplicate_argument_witness :
    recordInit dogSlots [Value.str "Rex", Value.int 30, Value.str "Bob"]
      [("owner", Value.str "Bob")] =
      Except.error (PyError.duplicateArgument "owner") := by
  obtain ⟨q, hqm, hqs, herr⟩ := C6_duplicate_argument dogSlots
    [Value.str "Rex", Value.int 30, Value.str "Bob"]
    [("owner", Value.str "Bob")] (by decide) (by decide) (by decide)
  have htake : List.take [Value.str "Rex", Value.int 30, Value.str "Bob"].length dogSlots
      = ["name", "weight", "owner"] := rfl
  rw [htake] at hqm
  have hq : q = "owner" := by
    simp only [List.mem_cons, List.not_mem_nil, or_false] at hqm
    rcases hqm with rfl | rfl | rfl
    · exact absurd hqs (by decide)
    · exact absurd hqs (by decide)
    · rfl
  rw [hq] at herr
  exact herr

/-- C7: for every generated record type, a construction call that
passes a keyword argument whose name is not a declared field — while
every declared field receives exactly one value, since a missing or
duplicated field is detected first — fails with the
`UnexpectedArgumentError` naming an undeclared keyword, and no instance
is produced. -/
theorem C7_unexpected_argument (slots : List String) (args : List Value)
    (kwargs : List (String × Value)) (hid : slots.all isIdentifier = true)
    (hnd : slots.Nodup) (hlen : args.length ≤ slots.length)
    (hpos : ∀ p ∈ slots.take args.length, lookupKw kwargs p = none)
    (hcov : ∀ p ∈ slots.drop args.length, (lookupKw kwargs p).isSome)
    (hex : ∃ k ∈ kwargs.map Prod.fst, k ∉ slots) :
    ∃ q ∈ kwargs.map Prod.fst, q ∉ slots ∧
      recordInit slots args kwargs = Except.error (PyError.unexpectedArgument q) := by
  have hsb := sigBind_ok slots args kwargs hnd hlen hpos hcov
  obtain ⟨k, hkm, hks⟩ := hex
  obtain ⟨kv, hkv, hkeq⟩ := List.mem_map.mp hkm
  have hkvrem : kv ∈ removeKeys kwargs (slots.drop args.length) := by
    refine mem_removeKeys.mpr ⟨hkv, fun hdrop => ?_⟩
    exact hks (hkeq ▸ List.drop_subset _ _ hdrop)
  cases hrem : removeKeys kwargs (slots.drop args.length) with
  | nil =>
    rw [hrem] at hkvrem
    simp at hkvrem
  | cons kv₀ rest =>
    have hkv₀ : kv₀ ∈ removeKeys kwargs (slots.drop args.length) := by
      rw [hrem]
      exact List.mem_cons_self _ _
    obtain ⟨hkv₀kw, hkv₀nd⟩ := mem_removeKeys.mp hkv₀
    have hq1 : kv₀.1 ∈ kwargs.map Prod.fst := List.mem_map_of_mem Prod.fst hkv₀kw
    have hq2 : kv₀.1 ∉ slots := by
      intro hsl
      rw [← List.take_append_drop args.length slots] at hsl
      rcases List.mem_append.mp hsl with htake | hdrop
      · have hn := hpos kv₀.1 htake
        rw [lookupKw_eq_none_iff] at hn
        exact hn hq1
      · exact hkv₀nd hdrop
    refine ⟨kv₀.1, hq1, hq2, ?_⟩
    rw [hrem] at hsb
    simp only at hsb
    simp only [recordInit, mkSignature_ok slots hid hnd, hsb]

/-- C7 witness: `Dog('Rex', 30, 'Bob', master='Bob')` fails with the
unexpected-argument error naming `master`. -/
theorem C7_unexpected_argument_witness :
    recordInit dogSlots [Value.str "Rex", Value.int 30, Value.str "Bob"]
      [("master", Value.str "Bob")] =
      Except.error (PyError.unexpectedArgument "master") := by
  obtain ⟨q, hqm, hqn, herr⟩ := C7_unexpected_argument dogSlots
    [Value.str "Rex", Value.int 30, Value.str "Bob"]
    [("master", Value.str "Bob")] (by decide) (by decide) (by decide)
    (by decide) (by decide) (by decide)
  have hq : q = "master" := by
    simpa using hqm
  rw [hq] at herr
  exact herr

/-- C8: the attribute set of an instance is closed: assigning a value
to any name not in the declared field set fails with `AttributeError`,
construction only sets declared fields, and assignment keeps the
attribute set inside the declared fields — an instance never carries an
attribute beyond the declared fields. -/
theorem C8_closed_attribute_set (slots : List String) :
    (∀ (store : Store) (name : String) (v : Value), name ∉ slots →
      instSetattr slots store name v =
        Except.error (PyError.attributeError name)) ∧
    (∀ (args : List Value) (kwargs : List (String × Value)) (store₀ : Store),
      recordInit slots args kwargs = Except.ok store₀ →
      ∀ q ∈ store₀.map Prod.fst, q ∈ slots) ∧
    (∀ (store : Store) (name : String) (v : Value) (store' : Store),
      (∀ q ∈ store.map Prod.fst, q ∈ slots) →
      instSetattr slots store name v = Except.ok store' →
      ∀ q ∈ store'.map Prod.fst, q ∈ slots) := by
  refine ⟨fun store name v h => ?_, fun args kwargs store₀ h => ?_,
    fun store name v store' hs h => ?_⟩
  · rw [instSetattr, if_neg h]
  · simp only [recordInit] at h
    cases hm : mkSignature slots [] with
    | error e =>
      rw [hm] at h
      simp at h
    | ok params =>
      rw [hm] at h
      simp only at h
      cases hs2 : sigBind params args kwargs with
      | error e =>
        rw [hs2] at h
        simp at h
      | ok bound =>
        rw [hs2] at h
        simp only at h
        exact applyBound_keys bound [] store₀ slots h (by simp)
  · rw [instSetattr] at h
    by_cases hm : name ∈ slots
    · rw [if_pos hm] at h
      injection h with h'
      intro q hq
      rw [← h'] at hq
      rcases map_fst_setStore_mem hq with h1 | h2
      · exact hs q h1
      · exact h2 ▸ hm
    · rw [if_neg hm] at h
      simp at h

/-- C8 witness: assigning `master` on a `Dog` instance fails, and the
constructed instance carries only declared fields. -/
theorem C8_closed_attribute_set_witness :
    instSetattr dogSlots dogStore "master" (Value.str "Bob") =
      Except.error (PyError.attributeError "master") ∧
    (∀ q ∈ dogStore.map Prod.fst, q ∈ dogSlots) := by
  constructor
  · exact (C8_closed_attribute_set dogSlots).1 dogStore "master"
      (Value.str "Bob") (by decide)
  · exact (C8_closed_attribute_set dogSlots).2.1
      [Value.str "Rex", Value.int 30, Value.str "Bob"] [] dogStore (by rfl)

/-- C9: after a successful construction, reassigning one declared field
changes subsequent iteration and display output only in that field's
position: the reassigned field shows the new value, every other
declared field's value is unchanged, and the field order is
unaffected. -/
theorem C9_reassignment_frame (cls_name : String) (slots : List String)
    (store : Store) (name : String) (v : Value)
    (hkeys : store.map Prod.fst = slots) (hmem : name ∈ slots) :
    ∃ store', instSetattr slots store name v = Except.ok store' ∧
      store'.map Prod.fst = slots ∧
      recordIter slots store =
        Except.ok (slots.map fun q => (lookupKw store q).getD (Value.int 0)) ∧
      recordIter slots store' =
        Except.ok (slots.map fun q =>
          if q = name then v else (lookupKw store q).getD (Value.int 0)) ∧
      recordRepr cls_name slots store' =
        Except.ok (cls_name ++ "(" ++
          String.intercalate ", " (slots.map fun q => q ++ "=" ++
            reprV (if q = name then v
              else (lookupKw store q).getD (Value.int 0))) ++ ")") := by
  have hmemk : name ∈ store.map Prod.fst := by
    rw [hkeys]
    exact hmem
  have hset : instSetattr slots store name v =
      Except.ok (setStore store name v) := by
    rw [instSetattr, if_pos hmem]
  have hkeys' : (setStore store name v).map Prod.fst = slots := by
    rw [map_fst_setStore v hmemk, hkeys]
  have hsome : ∀ q ∈ slots, (lookupKw store q).isSome :=
    fun q hq => lookupKw_isSome_iff.mpr (by rw [hkeys]; exact hq)
  have hsome' : ∀ q ∈ slots, (lookupKw (setStore store name v) q).isSome :=
    fun q hq => lookupKw_isSome_iff.mpr (by rw [hkeys']; exact hq)
  have hlook : ∀ q ∈ slots, (lookupKw (setStore store name v) q).getD (Value.int 0)
      = if q = name then v else (lookupKw store q).getD (Value.int 0) := by
    intro q hq
    by_cases hqn : q = name
    · subst hqn
      rw [lookupKw_setStore_self, if_pos rfl]
      rfl
    · rw [lookupKw_setStore_ne v hqn, if_neg hqn]
  have hiter' : recordIter slots (setStore store name v) =
      Except.ok (slots.map fun q =>
        if q = name then v else (lookupKw store q).getD (Value.int 0)) := by
    rw [recordIter_lookup _ _ hsome']
    exact congrArg Except.ok (List.map_congr_left hlook)
  refine ⟨setStore store name v, hset, hkeys',
    recordIter_lookup _ _ hsome, hiter', ?_⟩
  simp only [recordRepr, hiter', zip_map_self, List.map_map]
  rfl

/-- C9 witness: reassigning `weight` to `32` on `Dog('Rex', 30, 'Bob')`
updates only the `weight` position of iteration and display. -/
theorem C9_reassignment_frame_witness :
    instSetattr dogSlots dogStore "weight" (Value.int 32) =
      Except.ok [("name", Value.str "Rex"), ("weight", Value.int 32),
        ("owner", Value.str "Bob")] ∧
    recordIter dogSlots [("name", Value.str "Rex"), ("weight", Value.int 32),
        ("owner", Value.str "Bob")] =
      Except.ok [Value.str "Rex", Value.int 32, Value.str "Bob"] ∧
    recordRepr "Dog" dogSlots [("name", Value.str "Rex"),
        ("weight", Value.int 32), ("owner", Value.str "Bob")] =
      Except.ok "Dog(name='Rex', weight=32, owner='Bob')" := by
  obtain ⟨store', h1, h2, h3, h4, h5⟩ := C9_reassignment_frame "Dog" dogSlots
    dogStore "weight" (Value.int 32) (by decide) (by decide)
  have hst : store' = [("name", Value.str "Rex"), ("weight", Value.int 32),
      ("owner", Value.str "Bob")] := by
    have := h1.symm.trans (by rfl : instSetattr dogSlots dogStore "weight"
      (Value.int 32) = Except.ok [("name", Value.str "Rex"),
        ("weight", Value.int 32), ("owner", Value.str "Bob")])
    injection this
  subst hst
  exact ⟨h1, h4.trans (by rfl), h5.trans (by rfl)⟩

/-- C10: a non-string one-shot iterable field specification whose
elements are all valid identifiers is exhausted by the validator's
`all(...)` identifier check before `tuple(names)` runs, so
`get_field_names` returns the empty tuple and `record_factory` produces
a type with no declared fields instead of the supplied names. -/
theorem C10_iterator_exhausted (cls_name : String) (xs : List String)
    (h : xs.all isIdentifier = true) :
    get_field_names (FieldNames.iter xs) = Except.ok [] ∧
    record_factory cls_name (FieldNames.iter xs) =
      Except.ok ⟨cls_name, []⟩ := by
  simp [get_field_names, record_factory, h]

/-- C10 witness: a generator yielding `('name', 'weight', 'owner')`
produces a `Dog` type with no fields at all. -/
theorem C10_iterator_exhausted_witness :
    get_field_names (FieldNames.iter ["name", "weight", "owner"]) =
      Except.ok [] ∧
    record_factory "Dog" (FieldNames.iter ["name", "weight", "owner"]) =
      Except.ok ⟨"Dog", []⟩ :=
  C10_iterator_exhausted "Dog" ["name", "weight", "owner"] (by decide)
